import Mathlib

/-!
Verification of the vysync snapshot-diff-patch reconciliation engine.

Shallow embedding of the Python source:
* `vysync/models.py` — the `Site` and `Equipment` dataclasses and category
  constants;
* `vysync/diff.py` — `PatchSet` and `diff_entities`;
* `vysync/adapters/supabase_adapter.py` — the DB fetchers and patch appliers;
* `vysync/adapters/yuman_adapter.py` — the rate limiter and the CMMS-side
  patch appliers with their call traces and DB write-backs.

Python dictionaries are embedded as association lists `List (K × T)` with
first-match lookup `dget`; a dictionary produced by Python iteration has
pairwise-distinct keys, expressed where needed as the hypothesis
`(m.map Prod.fst).Nodup`.  Python `float` values are embedded as `Rat`
(the code only ever compares them for equality and passes them through),
`Optional[X]` as `Option X`, and integer ids as `Int`.
-/

set_option maxHeartbeats 1000000

/-- Category constant `CAT_INVERTER` from `vysync/models.py`. -/
def CAT_INVERTER : Int := 11102

/-- Category constant `CAT_MODULE` from `vysync/models.py`. -/
def CAT_MODULE : Int := 11103

/-- Category constant `CAT_STRING` from `vysync/models.py`. -/
def CAT_STRING : Int := 12404

/-- Category constant `CAT_CENTRALE` from `vysync/models.py`. -/
def CAT_CENTRALE : Int := 11441

/-- The `Site` frozen dataclass from `vysync/models.py`.  Field order and
optionality follow the source; `float` fields are embedded as `Rat`. -/
structure Site where
  vcom_system_key : String
  name : String
  latitude : Option Rat
  longitude : Option Rat
  nominal_power : Option Rat
  commission_date : Option String
  address : Option String
  yuman_site_id : Option Int
deriving DecidableEq, Repr

/-- `Site.key()` from `vysync/models.py`: the unique id used for diffing. -/
def Site.key (s : Site) : String := s.vcom_system_key

/-- The `Equipment` frozen dataclass from `vysync/models.py`. -/
structure Equipment where
  site_key : String
  category_id : Int
  eq_type : String
  vcom_device_id : String
  name : String
  brand : Option String
  model : Option String
  serial_number : Option String
  count : Option Int
  parent_vcom_id : Option String
  yuman_material_id : Option Int
deriving DecidableEq, Repr

/-- `Equipment.key()` from `vysync/models.py`: `(site_key, vcom_device_id)`. -/
def Equipment.key (e : Equipment) : String × String := (e.site_key, e.vcom_device_id)

/-- `PatchSet` from `vysync/diff.py`: add / update (old, new) / delete. -/
structure PatchSet (T : Type) where
  add : List T
  update : List (T × T)
  delete : List T
deriving DecidableEq, Repr

/-- `PatchSet.is_empty` from `vysync/diff.py`:
`not (self.add or self.update or self.delete)`. -/
def PatchSet.is_empty {T : Type} (p : PatchSet T) : Bool :=
  p.add.isEmpty && p.update.isEmpty && p.delete.isEmpty

/-- Python `dict.get`: first-match lookup in an association list.  On a
dictionary (pairwise-distinct keys) the first match is the only match. -/
def dget {K T : Type} [DecidableEq K] : List (K × T) → K → Option T
  | [], _ => none
  | p :: rest, q => if p.1 = q then some p.2 else dget rest q

/-- Python `dict` assignment `out[k] = v`: replace in place when the key is
already present (Python keeps the original insertion position), append
otherwise. -/
def dinsert {K T : Type} [DecidableEq K] (m : List (K × T)) (k : K) (v : T) :
    List (K × T) :=
  if (dget m k).isSome then m.map (fun kv => if kv.1 = k then (k, v) else kv)
  else m ++ [(k, v)]

/-- `diff_entities` from `vysync/diff.py`.  The Python loop over
`target.items()` appends to `add` when `current.get(k)` is `None` and to
`upd` when the entities are field-wise unequal (`asdict(cur) != asdict(tgt)`,
which for frozen dataclasses is structural equality); the loop over
`current.items()` appends to `delete` when `k not in target`. -/
def diff_entities {K T : Type} [DecidableEq K] [DecidableEq T]
    (current target : List (K × T)) : PatchSet T :=
  let add := (target.filter (fun kv => (dget current kv.1).isNone)).map Prod.snd
  let upd := target.filterMap (fun kv =>
    match dget current kv.1 with
    | none => none
    | some cur => if cur = kv.2 then none else some (cur, kv.2))
  let del := (current.filter (fun kv => (dget target kv.1).isNone)).map Prod.snd
  ⟨add, upd, del⟩

example :
    diff_entities [(1, 10), (2, 20)] [(2, 21), (3, 30)] =
      PatchSet.mk [30] [(20, 21)] [10] := by decide

example : (diff_entities [(1, 10), (2, 20)] [(1, 10), (2, 20)]).is_empty = true := by
  decide

theorem dget_mem {K T : Type} [DecidableEq K] {k : K} {v : T} :
    ∀ {m : List (K × T)}, dget m k = some v → (k, v) ∈ m := by
  intro m
  induction m with
  | nil => intro h; simp [dget] at h
  | cons kv rest ih =>
    obtain ⟨k', v'⟩ := kv
    intro h
    by_cases hk : k' = k
    · subst hk
      have hv : v' = v := by simpa [dget] using h
      subst hv
      exact List.mem_cons_self _ _
    · simp only [dget, if_neg hk] at h
      exact List.mem_cons_of_mem _ (ih h)

theorem mem_dget {K T : Type} [DecidableEq K] {k : K} {v : T} :
    ∀ {m : List (K × T)}, (m.map Prod.fst).Nodup → (k, v) ∈ m → dget m k = some v := by
  intro m
  induction m with
  | nil => intro _ h; simp at h
  | cons kv rest ih =>
    obtain ⟨k', v'⟩ := kv
    intro hnd h
    simp only [List.map_cons, List.nodup_cons] at hnd
    rcases List.mem_cons.mp h with heq | hmem
    · obtain ⟨hk, hv⟩ := Prod.mk.injEq .. ▸ heq.symm
      subst hk; subst hv
      simp [dget]
    · have hk : k' ≠ k := by
        intro e
        subst e
        exact hnd.1 (List.mem_map_of_mem Prod.fst hmem)
      simp only [dget, if_neg hk]
      exact ih hnd.2 hmem

theorem dget_eq_none_iff {K T : Type} [DecidableEq K] {k : K} :
    ∀ {m : List (K × T)}, dget m k = none ↔ k ∉ m.map Prod.fst := by
  intro m
  induction m with
  | nil => simp [dget]
  | cons kv rest ih =>
    obtain ⟨k', v'⟩ := kv
    by_cases hk : k' = k
    · subst hk
      simp [dget]
    · simp only [dget, if_neg hk, List.map_cons, List.mem_cons, ih]
      constructor
      · intro h hmem
        rcases hmem with h1 | h2
        · exact hk h1.symm
        · exact h h2
      · intro h
        exact fun h2 => h (Or.inr h2)

theorem dget_isSome_of_mem_keys {K T : Type} [DecidableEq K] {k : K}
    {m : List (K × T)} (h : k ∈ m.map Prod.fst) : (dget m k).isSome := by
  rcases hd : dget m k with _ | v
  · exact absurd h (dget_eq_none_iff.mp hd)
  · rfl

theorem mem_add_of_dget {K T : Type} [DecidableEq K] [DecidableEq T]
    {current target : List (K × T)} {k : K} {t : T}
    (hcur : dget current k = none) (htgt : dget target k = some t) :
    t ∈ (diff_entities current target).add := by
  have hmem : (k, t) ∈ target := dget_mem htgt
  have : (k, t) ∈ target.filter (fun kv => (dget current kv.1).isNone) := by
    apply List.mem_filter.mpr
    exact ⟨hmem, by simp [hcur]⟩
  simpa [diff_entities] using List.mem_map_of_mem Prod.snd this

theorem mem_delete_of_dget {K T : Type} [DecidableEq K] [DecidableEq T]
    {current target : List (K × T)} {k : K} {c : T}
    (hcur : dget current k = some c) (htgt : dget target k = none) :
    c ∈ (diff_entities current target).delete := by
  have hmem : (k, c) ∈ current := dget_mem hcur
  have : (k, c) ∈ current.filter (fun kv => (dget target kv.1).isNone) := by
    apply List.mem_filter.mpr
    exact ⟨hmem, by simp [htgt]⟩
  simpa [diff_entities] using List.mem_map_of_mem Prod.snd this

theorem mem_update_of_dget {K T : Type} [DecidableEq K] [DecidableEq T]
    {current target : List (K × T)} {k : K} {c t : T}
    (hcur : dget current k = some c) (htgt : dget target k = some t) (hne : c ≠ t) :
    (c, t) ∈ (diff_entities current target).update := by
  have hmem : (k, t) ∈ target := dget_mem htgt
  simp only [diff_entities]
  apply List.mem_filterMap.mpr
  refine ⟨(k, t), hmem, ?_⟩
  simp only [hcur, if_neg hne]

theorem add_mem_dget {K T : Type} [DecidableEq K] [DecidableEq T]
    {current target : List (K × T)} {t : T}
    (ht : (target.map Prod.fst).Nodup)
    (h : t ∈ (diff_entities current target).add) :
    ∃ k, dget current k = none ∧ dget target k = some t := by
  simp only [diff_entities, List.mem_map] at h
  obtain ⟨kv, hkv, hsnd⟩ := h
  obtain ⟨hmem, hpred⟩ := List.mem_filter.mp hkv
  refine ⟨kv.1, ?_, ?_⟩
  · simpa using hpred
  · subst hsnd
    exact mem_dget ht hmem

theorem delete_mem_dget {K T : Type} [DecidableEq K] [DecidableEq T]
    {current target : List (K × T)} {c : T}
    (hc : (current.map Prod.fst).Nodup)
    (h : c ∈ (diff_entities current target).delete) :
    ∃ k, dget target k = none ∧ dget current k = some c := by
  simp only [diff_entities, List.mem_map] at h
  obtain ⟨kv, hkv, hsnd⟩ := h
  obtain ⟨hmem, hpred⟩ := List.mem_filter.mp hkv
  refine ⟨kv.1, ?_, ?_⟩
  · simpa using hpred
  · subst hsnd
    exact mem_dget hc hmem

theorem update_mem_dget {K T : Type} [DecidableEq K] [DecidableEq T]
    {current target : List (K × T)} {ct : T × T}
    (ht : (target.map Prod.fst).Nodup)
    (h : ct ∈ (diff_entities current target).update) :
    ∃ k, dget current k = some ct.1 ∧ dget target k = some ct.2 ∧ ct.1 ≠ ct.2 := by
  simp only [diff_entities, List.mem_filterMap] at h
  obtain ⟨kv, hkv, heq⟩ := h
  rcases hcur : dget current kv.1 with _ | cur
  · rw [hcur] at heq; simp at heq
  · rw [hcur] at heq
    have heq2 : (if cur = kv.2 then none else some (cur, kv.2)) = some ct := heq
    by_cases hct : cur = kv.2
    · rw [if_pos hct] at heq2; simp at heq2
    · rw [if_neg hct] at heq2
      have hp : (cur, kv.2) = ct := Option.some.inj heq2
      refine ⟨kv.1, ?_, ?_, ?_⟩
      · rw [← hp]; exact hcur
      · rw [← hp]; exact mem_dget ht hkv
      · rw [← hp]; exact hct

/-- The four possible outcomes of the diff for one key. -/
inductive DiffOutcome : Type
  | toAdd
  | toUpdate
  | toDelete
  | unchanged
deriving DecidableEq, Repr

/-- What it means, in terms of the two snapshots and the computed
`diff_entities` patch, for a key to fall in a given outcome class. -/
def diffOutcomeHolds {K T : Type} [DecidableEq K] [DecidableEq T]
    (current target : List (K × T)) (k : K) : DiffOutcome → Prop
  | .toAdd => dget current k = none ∧
      ∃ t, dget target k = some t ∧ t ∈ (diff_entities current target).add
  | .toUpdate => ∃ c t, dget current k = some c ∧ dget target k = some t ∧
      c ≠ t ∧ (c, t) ∈ (diff_entities current target).update
  | .toDelete => dget target k = none ∧
      ∃ c, dget current k = some c ∧ c ∈ (diff_entities current target).delete
  | .unchanged => ∃ c, dget current k = some c ∧ dget target k = some c

/-- C1: `diff_entities` partitions the keys of the two snapshots.  For two
snapshots with pairwise-distinct keys, (1) every key of
`keys(current) ∪ keys(target)` falls in exactly one of the four outcome
classes add / update / delete / unchanged; (2) every entry of the `add` list
is the target entity at a key absent from `current`; (3) every entry of the
`delete` list is the current entity at a key absent from `target`; and
(4) every `update` pair carries a key present in both maps whose entities
are field-wise unequal. -/
theorem diff_entities_partition {K T : Type} [DecidableEq K] [DecidableEq T]
    (current target : List (K × T))
    (hc : (current.map Prod.fst).Nodup) (ht : (target.map Prod.fst).Nodup) :
    (∀ k, (k ∈ current.map Prod.fst ∨ k ∈ target.map Prod.fst) →
      ∃! o : DiffOutcome, diffOutcomeHolds current target k o)
    ∧ (∀ t ∈ (diff_entities current target).add,
        ∃ k, dget current k = none ∧ dget target k = some t)
    ∧ (∀ c ∈ (diff_entities current target).delete,
        ∃ k, dget target k = none ∧ dget current k = some c)
    ∧ (∀ ct ∈ (diff_entities current target).update,
        ∃ k, dget current k = some ct.1 ∧ dget target k = some ct.2 ∧ ct.1 ≠ ct.2) := by
  refine ⟨?_, fun t h => add_mem_dget ht h, fun c h => delete_mem_dget hc h,
    fun ct h => update_mem_dget ht h⟩
  intro k hk
  rcases hcur : dget current k with _ | c <;> rcases htgt : dget target k with _ | t
  · exfalso
    rcases hk with hmem | hmem
    · exact dget_eq_none_iff.mp hcur hmem
    · exact dget_eq_none_iff.mp htgt hmem
  · refine ⟨.toAdd, ⟨hcur, t, htgt, mem_add_of_dget hcur htgt⟩, ?_⟩
    intro o ho
    cases o with
    | toAdd => rfl
    | toUpdate =>
      obtain ⟨c', t', h1, _, _, _⟩ := ho
      rw [hcur] at h1; exact absurd h1 (by simp)
    | toDelete =>
      obtain ⟨h1, _⟩ := ho
      rw [htgt] at h1; exact absurd h1 (by simp)
    | unchanged =>
      obtain ⟨c', h1, _⟩ := ho
      rw [hcur] at h1; exact absurd h1 (by simp)
  · refine ⟨.toDelete, ⟨htgt, c, hcur, mem_delete_of_dget hcur htgt⟩, ?_⟩
    intro o ho
    cases o with
    | toDelete => rfl
    | toAdd =>
      obtain ⟨h1, _⟩ := ho
      rw [hcur] at h1; exact absurd h1 (by simp)
    | toUpdate =>
      obtain ⟨c', t', _, h2, _, _⟩ := ho
      rw [htgt] at h2; exact absurd h2 (by simp)
    | unchanged =>
      obtain ⟨c', _, h2⟩ := ho
      rw [htgt] at h2; exact absurd h2 (by simp)
  · by_cases hct : c = t
    · subst hct
      refine ⟨.unchanged, ⟨c, hcur, htgt⟩, ?_⟩
      intro o ho
      cases o with
      | unchanged => rfl
      | toAdd =>
        obtain ⟨h1, _⟩ := ho
        rw [hcur] at h1; exact absurd h1 (by simp)
      | toDelete =>
        obtain ⟨h1, _⟩ := ho
        rw [htgt] at h1; exact absurd h1 (by simp)
      | toUpdate =>
        obtain ⟨c', t', h1, h2, hne, _⟩ := ho
        rw [hcur] at h1
        rw [htgt] at h2
        exact (hne ((Option.some.inj h1).symm.trans (Option.some.inj h2))).elim
    · refine ⟨.toUpdate, ⟨c, t, hcur, htgt, hct, mem_update_of_dget hcur htgt hct⟩, ?_⟩
      intro o ho
      cases o with
      | toUpdate => rfl
      | toAdd =>
        obtain ⟨h1, _⟩ := ho
        rw [hcur] at h1; exact absurd h1 (by simp)
      | toDelete =>
        obtain ⟨h1, _⟩ := ho
        rw [htgt] at h1; exact absurd h1 (by simp)
      | unchanged =>
        obtain ⟨c', h1, h2⟩ := ho
        rw [hcur] at h1
        rw [htgt] at h2
        exact (hct ((Option.some.inj h1).trans (Option.some.inj h2).symm)).elim

/-- Witness for C1 at the concrete snapshots
`current = [(1, 10), (2, 20)]`, `target = [(2, 21), (3, 30)]`. -/
theorem diff_entities_partition_witness :
    ((([(1, 10), (2, 20)] : List (Nat × Nat)).map Prod.fst).Nodup ∧
      (([(2, 21), (3, 30)] : List (Nat × Nat)).map Prod.fst).Nodup) ∧
    ((∀ k, (k ∈ ([(1, 10), (2, 20)] : List (Nat × Nat)).map Prod.fst ∨
        k ∈ ([(2, 21), (3, 30)] : List (Nat × Nat)).map Prod.fst) →
      ∃! o : DiffOutcome, diffOutcomeHolds [(1, 10), (2, 20)] [(2, 21), (3, 30)] k o)
    ∧ (∀ t ∈ (diff_entities [(1, 10), (2, 20)] [(2, 21), (3, 30)]).add,
        ∃ k, dget [(1, 10), (2, 20)] k = none ∧ dget [(2, 21), (3, 30)] k = some t)
    ∧ (∀ c ∈ (diff_entities [(1, 10), (2, 20)] [(2, 21), (3, 30)]).delete,
        ∃ k, dget [(2, 21), (3, 30)] k = none ∧ dget [(1, 10), (2, 20)] k = some c)
    ∧ (∀ ct ∈ (diff_entities [(1, 10), (2, 20)] [(2, 21), (3, 30)]).update,
        ∃ k, dget [(1, 10), (2, 20)] k = some ct.1 ∧
          dget [(2, 21), (3, 30)] k = some ct.2 ∧ ct.1 ≠ ct.2)) :=
  ⟨⟨by decide, by decide⟩,
    diff_entities_partition [(1, 10), (2, 20)] [(2, 21), (3, 30)] (by decide) (by decide)⟩

/-- C2: diffing a snapshot against itself yields a `PatchSet` for which
`is_empty` holds, for every snapshot with pairwise-distinct keys. -/
theorem diff_entities_self_is_empty {K T : Type} [DecidableEq K] [DecidableEq T]
    (a : List (K × T)) (h : (a.map Prod.fst).Nodup) :
    (diff_entities a a).is_empty = true := by
  have hadd : a.filter (fun kv => (dget a kv.1).isNone) = [] := by
    apply List.filter_eq_nil_iff.mpr
    intro kv hkv
    have : (dget a kv.1).isSome :=
      dget_isSome_of_mem_keys (List.mem_map_of_mem Prod.fst hkv)
    simp only [Option.isNone]
    rcases hd : dget a kv.1 with _ | v
    · rw [hd] at this; exact absurd this (by simp)
    · simp
  have hupd : a.filterMap (fun kv =>
      match dget a kv.1 with
      | none => none
      | some cur => if cur = kv.2 then none else some (cur, kv.2)) = [] := by
    apply List.filterMap_eq_nil_iff.mpr
    intro kv hkv
    obtain ⟨k, v⟩ := kv
    rw [mem_dget h hkv]
    simp
  simp only [diff_entities, PatchSet.is_empty, hadd, hupd]
  simp

/-- Witness for C2 at the concrete snapshot `[(1, 10), (2, 20)]`. -/
theorem diff_entities_self_is_empty_witness :
    (([(1, 10), (2, 20)] : List (Nat × Nat)).map Prod.fst).Nodup ∧
    (diff_entities [(1, 10), (2, 20)] [(1, 10), (2, 20)]).is_empty = true :=
  ⟨by decide, diff_entities_self_is_empty [(1, 10), (2, 20)] (by decide)⟩

/-- `SupabaseAdapter.apply_sites_patch` from
`vysync/adapters/supabase_adapter.py`, acting on the `sites_mapping` table
(a list of rows).  The add loop issues an `insert` (append) per `add` entry;
the update loop issues an `update` replacing every row whose
`vcom_system_key` equals `new.key()` with the new row.  The `delete` list is
never consulted ("ignore Delete par sécurité"). -/
def sb_apply_sites_patch (tbl : List Site) (patch : PatchSet Site) : List Site :=
  let t1 := patch.add.foldl (fun t s => t ++ [s]) tbl
  patch.update.foldl
    (fun t ou => t.map (fun r =>
      if r.vcom_system_key = ou.2.vcom_system_key then ou.2 else r)) t1

/-- `SupabaseAdapter.apply_equips_patch` from
`vysync/adapters/supabase_adapter.py`, acting on the `equipments_mapping`
table.  The update loop matches rows on `vcom_device_id` and the site key. -/
def sb_apply_equips_patch (tbl : List Equipment) (patch : PatchSet Equipment) :
    List Equipment :=
  let t1 := patch.add.foldl (fun t e => t ++ [e]) tbl
  patch.update.foldl
    (fun t ou => t.map (fun r =>
      if r.vcom_device_id = ou.2.vcom_device_id ∧ r.site_key = ou.2.site_key
      then ou.2 else r)) t1

theorem mem_foldl_map_of_fixed {T U : Type} (g : U → T → T) (r : T) :
    ∀ (l : List U) (t : List T), r ∈ t → (∀ u ∈ l, g u r = r) →
      r ∈ l.foldl (fun acc u => acc.map (g u)) t := by
  intro l
  induction l with
  | nil => intro t hr _; exact hr
  | cons u rest ih =>
    intro t hr hfix
    simp only [List.foldl_cons]
    apply ih
    · exact List.mem_map.mpr ⟨r, hr, hfix u (List.mem_cons_self _ _)⟩
    · intro u' hu'
      exact hfix u' (List.mem_cons_of_mem _ hu')

theorem mem_foldl_append {T : Type} (r : T) :
    ∀ (l : List T) (t : List T), r ∈ t → r ∈ l.foldl (fun acc s => acc ++ [s]) t := by
  intro l
  induction l with
  | nil => intro t hr; exact hr
  | cons s rest ih =>
    intro t hr
    simp only [List.foldl_cons]
    exact ih _ (List.mem_append_left _ hr)

/-- C3: the DB appliers never remove or modify the rows corresponding to
`delete` entries.  Both appliers ignore the `delete` list entirely (the
result on any table is the same as with an empty `delete` list), and — given
that the patch's delete keys are disjoint from its update keys, as holds for
every diff-produced patch — every stored row whose key matches a `delete`
entry survives unchanged in the resulting table. -/
theorem db_appliers_never_delete (stbl : List Site) (etbl : List Equipment)
    (ps : PatchSet Site) (pe : PatchSet Equipment)
    (hs : ∀ d ∈ ps.delete, ∀ ou ∈ ps.update,
      ou.2.vcom_system_key ≠ d.vcom_system_key)
    (he : ∀ d ∈ pe.delete, ∀ ou ∈ pe.update,
      ¬(ou.2.vcom_device_id = d.vcom_device_id ∧ ou.2.site_key = d.site_key)) :
    (sb_apply_sites_patch stbl ps = sb_apply_sites_patch stbl ⟨ps.add, ps.update, []⟩)
    ∧ (sb_apply_equips_patch etbl pe =
        sb_apply_equips_patch etbl ⟨pe.add, pe.update, []⟩)
    ∧ (∀ d ∈ ps.delete, ∀ r ∈ stbl, r.vcom_system_key = d.vcom_system_key →
        r ∈ sb_apply_sites_patch stbl ps)
    ∧ (∀ d ∈ pe.delete, ∀ r ∈ etbl,
        r.vcom_device_id = d.vcom_device_id ∧ r.site_key = d.site_key →
        r ∈ sb_apply_equips_patch etbl pe) := by
  refine ⟨rfl, rfl, ?_, ?_⟩
  · intro d hd r hr hkey
    apply mem_foldl_map_of_fixed
    · exact mem_foldl_append r ps.add stbl hr
    · intro ou hou
      have : r.vcom_system_key ≠ ou.2.vcom_system_key := by
        rw [hkey]
        exact fun e => hs d hd ou hou e.symm
      simp [this]
  · intro d hd r hr hkey
    apply mem_foldl_map_of_fixed
    · exact mem_foldl_append r pe.add etbl hr
    · intro ou hou
      have : ¬(r.vcom_device_id = ou.2.vcom_device_id ∧ r.site_key = ou.2.site_key) := by
        intro ⟨e1, e2⟩
        exact he d hd ou hou ⟨e1.symm.trans hkey.1, e2.symm.trans hkey.2⟩
      simp [this]

/-- A concrete site row used by several witnesses: key `S1`, no optional
fields set. -/
def exSite1 : Site :=
  ⟨"S1", "Site one", none, none, none, none, none, none⟩

/-- A concrete site row with key `S2`. -/
def exSite2 : Site :=
  ⟨"S2", "Site two", none, none, none, none, none, none⟩

/-- A variant of `exSite1` with a different name (a field-wise change). -/
def exSite1b : Site :=
  ⟨"S1", "Site one renamed", none, none, none, none, none, none⟩

/-- A concrete equipment row: site `S1`, inverter `INV1`. -/
def exEquip1 : Equipment :=
  ⟨"S1", 11102, "inverter", "INV1", "Inverter 1", none, none, none, none, none, none⟩

/-- A concrete equipment row on site `S2`. -/
def exEquip2 : Equipment :=
  ⟨"S2", 11102, "inverter", "INV2", "Inverter 2", none, none, none, none, none, none⟩

/-- Witness for C3: a table holding `S1` and `S2`, and a patch that updates
`S1` and (vacuously, were deletes applied) deletes `S2`; the stored `S2` row
survives both appliers. -/
theorem db_appliers_never_delete_witness :
    ((∀ d ∈ (PatchSet.mk [] [(exSite1, exSite1b)] [exSite2]).delete,
        ∀ ou ∈ (PatchSet.mk [] [(exSite1, exSite1b)] [exSite2]).update,
          ou.2.vcom_system_key ≠ d.vcom_system_key) ∧
      (∀ d ∈ (PatchSet.mk ([] : List Equipment) [] [exEquip2]).delete,
        ∀ ou ∈ (PatchSet.mk ([] : List Equipment) [] [exEquip2]).update,
          ¬(ou.2.vcom_device_id = d.vcom_device_id ∧ ou.2.site_key = d.site_key))) ∧
    ((sb_apply_sites_patch [exSite1, exSite2] (PatchSet.mk [] [(exSite1, exSite1b)] [exSite2]) =
        sb_apply_sites_patch [exSite1, exSite2] ⟨[], [(exSite1, exSite1b)], []⟩)
    ∧ (sb_apply_equips_patch [exEquip1, exEquip2] (PatchSet.mk [] [] [exEquip2]) =
        sb_apply_equips_patch [exEquip1, exEquip2] ⟨[], [], []⟩)
    ∧ (∀ d ∈ (PatchSet.mk [] [(exSite1, exSite1b)] [exSite2]).delete,
        ∀ r ∈ [exSite1, exSite2], r.vcom_system_key = d.vcom_system_key →
        r ∈ sb_apply_sites_patch [exSite1, exSite2]
          (PatchSet.mk [] [(exSite1, exSite1b)] [exSite2]))
    ∧ (∀ d ∈ (PatchSet.mk ([] : List Equipment) [] [exEquip2]).delete,
        ∀ r ∈ [exEquip1, exEquip2],
          r.vcom_device_id = d.vcom_device_id ∧ r.site_key = d.site_key →
          r ∈ sb_apply_equips_patch [exEquip1, exEquip2]
            (PatchSet.mk [] [] [exEquip2]))) :=
  ⟨⟨by decide, by decide⟩,
    db_appliers_never_delete [exSite1, exSite2] [exEquip1, exEquip2]
      (PatchSet.mk [] [(exSite1, exSite1b)] [exSite2])
      (PatchSet.mk [] [] [exEquip2]) (by decide) (by decide)⟩

/-- Python truthiness of an `Optional[str]`: `None` and `""` are falsy. -/
def truthyStr : Option String → Bool
  | none => false
  | some s => s != ""

/-- Python falsiness of an `Optional[str]` (`not x`): `None` or `""`. -/
def strBlank : Option String → Bool
  | none => true
  | some s => s == ""

theorem truthyStr_iff (m : Option String) :
    truthyStr m = true ↔ (m ≠ none ∧ m ≠ some "") := by
  rcases m with _ | s
  · simp [truthyStr]
  · simp [truthyStr]

theorem strBlank_iff (m : Option String) :
    strBlank m = true ↔ (m = none ∨ m = some "") := by
  rcases m with _ | s
  · simp [strBlank]
  · simp [strBlank]

/-- The custom-field label `CUSTOM_INVERTER_ID` from
`vysync/adapters/yuman_adapter.py`. -/
def CUSTOM_INVERTER_ID : String := "Inverter ID (Vcom)"

/-- The per-pair update logic of `YumanAdapter.apply_sites_patch`
(`vysync/adapters/yuman_adapter.py`, update loop).  `fields_patch` gets the
Nominal Power custom field when `old.nominal_power != new.nominal_power and
new.nominal_power is not None`, then the Commission Date custom field when
`old.commission_date != new.commission_date and new.commission_date`
(Python truthiness); `update_site(old.yuman_site_id, ...)` is called only
when `fields_patch` is non-empty.  The result is `none` when no call is
made, otherwise the target site id and the two optional field values. -/
def site_update_call (old new : Site) :
    Option (Option Int × Option Rat × Option String) :=
  let powerField : Option Rat :=
    if old.nominal_power ≠ new.nominal_power ∧ new.nominal_power.isSome
    then new.nominal_power else none
  let dateField : Option String :=
    if old.commission_date ≠ new.commission_date ∧ truthyStr new.commission_date
    then new.commission_date else none
  if powerField.isSome ∨ dateField.isSome
  then some (old.yuman_site_id, powerField, dateField)
  else none

/-- The payload of a `yc.update_material` call: the optional `model` entry
and the custom-field list. -/
structure MatUpdatePayload where
  model : Option String
  fields : List (String × String)
deriving DecidableEq, Repr

/-- The per-pair update logic of `YumanAdapter.apply_equips_patch`
(`vysync/adapters/yuman_adapter.py`, update loop).  `fields_patch` gets the
`Inverter ID (Vcom)` custom field when `old.category_id == CAT_INVERTER and
old.vcom_device_id != new.vcom_device_id`; the payload carries `model` when
`not old.model and new.model` (Python truthiness); `update_material` is
called only when the payload dict is non-empty. -/
def equip_update_call (old new : Equipment) :
    Option (Option Int × MatUpdatePayload) :=
  let fields_patch : List (String × String) :=
    if old.category_id = CAT_INVERTER ∧ old.vcom_device_id ≠ new.vcom_device_id
    then [(CUSTOM_INVERTER_ID, new.vcom_device_id)] else []
  let modelField : Option String :=
    if strBlank old.model ∧ truthyStr new.model then new.model else none
  if modelField.isSome ∨ fields_patch ≠ []
  then some (old.yuman_material_id, ⟨modelField, fields_patch⟩)
  else none

/-- C6: for every `(old, new)` update pair of a CMMS-hop equipment patch,
the pushed payload carries the model value exactly when the old model is
empty or absent and the new model is non-empty (fill-if-blank), carries the
device-identifier correction custom field exactly when the old category is
inverter and the device identifiers differ, and no `update_material` call is
made when neither condition holds. -/
theorem yuman_equip_update_policy (old new : Equipment) :
    equip_update_call old new =
      (if ((old.model = none ∨ old.model = some "") ∧
            new.model ≠ none ∧ new.model ≠ some "")
          ∨ (old.category_id = CAT_INVERTER ∧ old.vcom_device_id ≠ new.vcom_device_id)
       then some (old.yuman_material_id,
         ⟨(if (old.model = none ∨ old.model = some "") ∧
              new.model ≠ none ∧ new.model ≠ some ""
           then new.model else none),
          (if old.category_id = CAT_INVERTER ∧ old.vcom_device_id ≠ new.vcom_device_id
           then [(CUSTOM_INVERTER_ID, new.vcom_device_id)] else [])⟩)
       else none) := by
  have hmc : (strBlank old.model = true ∧ truthyStr new.model = true) ↔
      ((old.model = none ∨ old.model = some "") ∧ new.model ≠ none ∧ new.model ≠ some "") :=
    and_congr (strBlank_iff _) (truthyStr_iff _)
  by_cases hm : (old.model = none ∨ old.model = some "") ∧
      new.model ≠ none ∧ new.model ≠ some ""
  · have hm2 : strBlank old.model = true ∧ truthyStr new.model = true := hmc.mpr hm
    have hnm : new.model.isSome = true := Option.isSome_iff_ne_none.mpr hm.2.1
    by_cases hi : old.category_id = CAT_INVERTER ∧ old.vcom_device_id ≠ new.vcom_device_id
    · simp [equip_update_call, hm2, hm, hi, hnm]
    · simp [equip_update_call, hm2, hm, hi, hnm]
  · have hm2 : ¬(strBlank old.model = true ∧ truthyStr new.model = true) :=
      fun h => hm (hmc.mp h)
    by_cases hi : old.category_id = CAT_INVERTER ∧ old.vcom_device_id ≠ new.vcom_device_id
    · simp [equip_update_call, hm2, hm, hi]
    · simp [equip_update_call, hm2, hm, hi]

/-- A variant of `exSite1` whose commission date is the empty string: it
differs from `exSite1`'s (absent) commission date and is non-null, yet is
falsy for Python truthiness. -/
def exSite1e : Site :=
  ⟨"S1", "Site one", none, none, none, some "", none, none⟩

/-- Counterexample to C7 as stated: for the update pair
`(exSite1, exSite1e)` the commission dates differ and the new value is
non-null, so the claim requires a pushed commission-date field; the code
makes no `update_site` call at all, because the update loop tests Python
truthiness (`and new.commission_date`) and the empty string is falsy. -/
theorem yuman_site_update_policy_cex :
    exSite1.commission_date ≠ exSite1e.commission_date ∧
    exSite1e.commission_date ≠ none ∧
    site_update_call exSite1 exSite1e = none := by
  refine ⟨by decide, by decide, ?_⟩
  rfl

/-- C7 (amended): for every `(old, new)` update pair of a CMMS-hop site
patch, only the rated power and the commission date are pushed: the rated
power exactly when the values differ and the new value is non-null, the
commission date exactly when the values differ and the new value is
non-null and non-empty (Python truthiness); when neither qualifies, no
`update_site` call is made. -/
theorem yuman_site_update_policy (old new : Site) :
    site_update_call old new =
      (if (old.nominal_power ≠ new.nominal_power ∧ new.nominal_power ≠ none)
          ∨ (old.commission_date ≠ new.commission_date ∧
              new.commission_date ≠ none ∧ new.commission_date ≠ some "")
       then some (old.yuman_site_id,
          (if old.nominal_power ≠ new.nominal_power ∧ new.nominal_power ≠ none
           then new.nominal_power else none),
          (if old.commission_date ≠ new.commission_date ∧
              new.commission_date ≠ none ∧ new.commission_date ≠ some ""
           then new.commission_date else none))
       else none) := by
  have hpc : (old.nominal_power ≠ new.nominal_power ∧ new.nominal_power.isSome = true) ↔
      (old.nominal_power ≠ new.nominal_power ∧ new.nominal_power ≠ none) :=
    and_congr Iff.rfl Option.isSome_iff_ne_none
  have hdc : (old.commission_date ≠ new.commission_date ∧
        truthyStr new.commission_date = true) ↔
      (old.commission_date ≠ new.commission_date ∧
        new.commission_date ≠ none ∧ new.commission_date ≠ some "") :=
    and_congr Iff.rfl (truthyStr_iff _)
  by_cases hp : old.nominal_power ≠ new.nominal_power ∧ new.nominal_power ≠ none
  · have hp2 : old.nominal_power ≠ new.nominal_power ∧ new.nominal_power.isSome = true :=
      hpc.mpr hp
    have hnp : new.nominal_power.isSome = true := hp2.2
    by_cases hd : old.commission_date ≠ new.commission_date ∧
        new.commission_date ≠ none ∧ new.commission_date ≠ some ""
    · have hd2 := hdc.mpr hd
      simp [site_update_call, hp2, hp, hd2, hd, hnp]
    · have hd2 : ¬(old.commission_date ≠ new.commission_date ∧
          truthyStr new.commission_date = true) := fun h => hd (hdc.mp h)
      simp [site_update_call, hp2, hp, hd2, hd, hnp]
  · have hp2 : ¬(old.nominal_power ≠ new.nominal_power ∧
        new.nominal_power.isSome = true) := fun h => hp (hpc.mp h)
    by_cases hd : old.commission_date ≠ new.commission_date ∧
        new.commission_date ≠ none ∧ new.commission_date ≠ some ""
    · have hd2 := hdc.mpr hd
      have hnd : new.commission_date.isSome = true :=
        Option.isSome_iff_ne_none.mpr hd.2.1
      simp [site_update_call, hp2, hp, hd2, hd, hnd]
    · have hd2 : ¬(old.commission_date ≠ new.commission_date ∧
          truthyStr new.commission_date = true) := fun h => hd (hdc.mp h)
      simp [site_update_call, hp2, hp, hd2, hd]

/-- `RATE` from `vysync/adapters/yuman_adapter.py`: 60 requests per minute. -/
def RATE : Nat := 60

/-- The pruning step of `rate_limited`:
`_REQ_TS[:] = [t for t in _REQ_TS if now - t < 60]`. -/
def rlPrune (w : List Rat) (now : Rat) : List Rat :=
  w.filter (fun t => now - t < 60)

/-- The time at which `rate_limited` lets the wrapped call proceed: after
pruning, when `len(_REQ_TS) >= RATE` the wrapper sleeps
`60 - (now - _REQ_TS[0]) + 0.1` seconds, otherwise it proceeds at once. -/
def rate_limited_issue_time (w : List Rat) (now : Rat) : Rat :=
  let pruned := rlPrune w now
  if RATE ≤ pruned.length then
    match pruned with
    | [] => now
    | t0 :: _ => now + (60 - (now - t0) + 1 / 10)
  else now

/-- The try/finally tail of the `rate_limited` wrapper: the wrapped
function's outcome (`ok` for a normal return, `error` for a raised
exception) is propagated, and in BOTH cases the `finally` block runs
`_REQ_TS.append(time.time())` — `tEnd` is the clock value at that moment,
appended to the pruned window. -/
def rate_limited_run {E A : Type} (w : List Rat) (now tEnd : Rat) :
    Except E A → Except E A × List Rat
  | Except.ok a => (Except.ok a, rlPrune w now ++ [tEnd])
  | Except.error e => (Except.error e, rlPrune w now ++ [tEnd])

/-- C10: the `rate_limited` wrapper records the call's timestamp whether the
wrapped function returns normally or raises: the windows after a successful
and after a failing call are identical, the outcome itself is propagated
unchanged, and every attempted call grows the pruned window by exactly one
slot, namely the appended end-of-call timestamp. -/
theorem rate_limited_appends_on_any_outcome {E A : Type}
    (w : List Rat) (now tEnd : Rat) (a : A) (e : E) :
    (@rate_limited_run E A w now tEnd (Except.ok a)).2 =
      (@rate_limited_run E A w now tEnd (Except.error e)).2
    ∧ (@rate_limited_run E A w now tEnd (Except.ok a)).1 = Except.ok a
    ∧ (@rate_limited_run E A w now tEnd (Except.error e)).1 = Except.error e
    ∧ (@rate_limited_run E A w now tEnd (Except.error e)).2.length =
        (rlPrune w now).length + 1
    ∧ tEnd ∈ (@rate_limited_run E A w now tEnd (Except.error e)).2 := by
  refine ⟨rfl, rfl, rfl, by simp [rate_limited_run], by simp [rate_limited_run]⟩

/-- The sleep arithmetic of `rate_limited` is sound for the calls that do go
through it: when the pruned window still holds `RATE` timestamps, the
wrapped call is issued strictly after the oldest recorded timestamp has left
the trailing 60-second window. -/
theorem rate_limited_blocks_until_window_admits (w : List Rat) (now t0 : Rat)
    (rest : List Rat) (h : rlPrune w now = t0 :: rest)
    (hfull : RATE ≤ (rlPrune w now).length) :
    rate_limited_issue_time w now = now + (60 - (now - t0) + 1 / 10)
    ∧ t0 + 60 < rate_limited_issue_time w now := by
  have he : rate_limited_issue_time w now = now + (60 - (now - t0) + 1 / 10) := by
    simp only [rate_limited_issue_time, h]
    rw [if_pos (h ▸ hfull)]
  constructor
  · exact he
  · rw [he]
    have : now + (60 - (now - t0) + 1 / 10) = t0 + 60 + 1 / 10 := by ring
    rw [this]
    linarith

/-- One observable action of the Yuman (CMMS) adapter: the outbound Yuman
API calls, each tagged with whether it is routed through the `rate_limited`
decorator, plus the logged skip warning of the equipment add loop.  In the
source only `_list_sites` and `_list_materials` carry `@rate_limited`; the
`create_site`, `update_site`, `create_material` and `update_material` calls
of the patch appliers invoke `self.yc` directly. -/
inductive Op : Type
  | listSites (limited : Bool)
  | listMaterials (limited : Bool)
  | createSite (s : Site) (limited : Bool)
  | updateSite (yid : Option Int) (power : Option Rat) (date : Option String)
      (limited : Bool)
  | createMaterial (siteId : Int) (e : Equipment) (limited : Bool)
  | updateMaterial (mid : Option Int) (payload : MatUpdatePayload) (limited : Bool)
  | warnMissingSite (siteKey : String)
deriving DecidableEq, Repr

/-- Whether an `Op` is an outbound call to the Yuman system. -/
def Op.isYumanCall : Op → Bool
  | .warnMissingSite _ => false
  | _ => true

/-- Whether an `Op` goes through the shared `rate_limited` wrapper. -/
def Op.isLimited : Op → Bool
  | .listSites b => b
  | .listMaterials b => b
  | .createSite _ b => b
  | .updateSite _ _ _ b => b
  | .createMaterial _ _ b => b
  | .updateMaterial _ _ b => b
  | .warnMissingSite _ => false

/-- The DB write-back
`sites_mapping.update({"yuman_site_id": id}).eq("vcom_system_key", k)` from
the add loop of `YumanAdapter.apply_sites_patch`: set only the
`yuman_site_id` column of every row whose key matches. -/
def db_set_yuman_site_id (tbl : List Site) (k : String) (yid : Int) : List Site :=
  tbl.map (fun r =>
    if r.vcom_system_key = k then { r with yuman_site_id := some yid } else r)

/-- The DB write-back
`equipments_mapping.update({"yuman_material_id": id})
  .eq("vcom_device_id", dev).eq("vcom_system_key", k)` from the add loop of
`YumanAdapter.apply_equips_patch`. -/
def db_set_yuman_material_id (tbl : List Equipment) (k dev : String) (mid : Int) :
    List Equipment :=
  tbl.map (fun r =>
    if r.vcom_device_id = dev ∧ r.site_key = k
    then { r with yuman_material_id := some mid } else r)

/-- The `sites_mapping` side effect of the add loop of
`YumanAdapter.apply_sites_patch`: one `create_site` per add entry, whose
returned id (`mkSiteId s` stands for the Yuman response `new_site["id"]`)
is immediately written back to the rows with that entry's key. -/
def sites_add_fold (mkSiteId : Site → Int) (adds : List Site) (tbl : List Site) :
    List Site :=
  adds.foldl (fun t s => db_set_yuman_site_id t s.vcom_system_key (mkSiteId s)) tbl

/-- `YumanAdapter.apply_sites_patch` from `vysync/adapters/yuman_adapter.py`:
fetch the Yuman snapshot through the rate-limited `_list_sites`, diff it
against the DB snapshot, then for each add entry call `yc.create_site`
(not rate-limited) and write the returned id back into `sites_mapping`, and
for each update pair call `yc.update_site` (not rate-limited) with the
restricted custom-fields payload when it is non-empty.  Returns the ordered
call trace and the resulting `sites_mapping` table. -/
def yuman_apply_sites_patch (mkSiteId : Site → Int) (stbl : List Site)
    (y_sites db_sites : List (String × Site)) : List Op × List Site :=
  let patch := diff_entities y_sites db_sites
  let addOps := patch.add.map (fun s => Op.createSite s false)
  let updOps := patch.update.filterMap (fun ou =>
    (site_update_call ou.1 ou.2).map (fun c => Op.updateSite c.1 c.2.1 c.2.2 false))
  (Op.listSites true :: addOps ++ updOps, sites_add_fold mkSiteId patch.add stbl)

/-- The `sites_mapping` lookup guarding the equipment add loop:
`select("yuman_site_id").eq("vcom_system_key", k).single()` followed by the
Python truthiness test `if not site_row or not site_row["yuman_site_id"]`.
The result is `none` exactly when the item is skipped: no matching row, a
null id, or the falsy id `0`. -/
def site_yuman_id (stbl : List Site) (k : String) : Option Int :=
  match stbl.find? (fun r => r.vcom_system_key == k) with
  | none => none
  | some row =>
    match row.yuman_site_id with
    | none => none
    | some yid => if yid = 0 then none else some yid

/-- One iteration of the add loop of `YumanAdapter.apply_equips_patch`:
skip with a logged warning when the owning site has no truthy
`yuman_site_id`, otherwise call `yc.create_material` (not rate-limited) and
write the returned id (`mkMatId e` stands for `mat["id"]`) back into
`equipments_mapping`. -/
def equip_add_step (mkMatId : Equipment → Int) (stbl : List Site)
    (etbl : List Equipment) (e : Equipment) : List Op × List Equipment :=
  match site_yuman_id stbl e.site_key with
  | none => ([Op.warnMissingSite e.site_key], etbl)
  | some yid =>
    ([Op.createMaterial yid e false],
      db_set_yuman_material_id etbl e.site_key e.vcom_device_id (mkMatId e))

/-- The whole add loop of `YumanAdapter.apply_equips_patch`, threading the
`equipments_mapping` table and accumulating the trace. -/
def equips_add_fold (mkMatId : Equipment → Int) (stbl : List Site)
    (adds : List Equipment) (acc : List Op × List Equipment) :
    List Op × List Equipment :=
  adds.foldl (fun a e =>
    let st := equip_add_step mkMatId stbl a.2 e
    (a.1 ++ st.1, st.2)) acc

/-- `YumanAdapter.apply_equips_patch` from
`vysync/adapters/yuman_adapter.py`: fetch the Yuman equipment snapshot
(through the rate-limited `_list_sites` and `_list_materials`), diff against
the DB snapshot, run the add loop, then for each update pair call
`yc.update_material` (not rate-limited) when the restricted payload is
non-empty. -/
def yuman_apply_equips_patch (mkMatId : Equipment → Int) (stbl : List Site)
    (etbl : List Equipment)
    (y_equips db_equips : List ((String × String) × Equipment)) :
    List Op × List Equipment :=
  let patch := diff_entities y_equips db_equips
  let addPhase := equips_add_fold mkMatId stbl patch.add
    ([Op.listSites true, Op.listMaterials true], etbl)
  let updOps := patch.update.filterMap (fun ou =>
    (equip_update_call ou.1 ou.2).map (fun c => Op.updateMaterial c.1 c.2 false))
  (addPhase.1 ++ updOps, addPhase.2)

/-- C4 (evaluation at the failing input): on the one-add sites patch
obtained from an empty Yuman snapshot and the DB snapshot `{"S1": exSite1}`,
the CMMS applier issues a `create_site` call to Yuman that does NOT pass
through the shared `rate_limited` wrapper — contradicting the claim (and the
module docstring) that every outbound Yuman call is subject to the
60-per-minute limiter. -/
theorem yuman_applier_bypasses_limiter :
    Op.createSite exSite1 false ∈
      (yuman_apply_sites_patch (fun _ => 101) [] [] [("S1", exSite1)]).1
    ∧ (Op.createSite exSite1 false).isYumanCall = true
    ∧ (Op.createSite exSite1 false).isLimited = false := by
  refine ⟨?_, rfl, rfl⟩
  decide

theorem equip_add_step_ops_const (mkMatId : Equipment → Int) (stbl : List Site)
    (etbl etbl' : List Equipment) (e : Equipment) :
    (equip_add_step mkMatId stbl etbl e).1 = (equip_add_step mkMatId stbl etbl' e).1 := by
  cases h : site_yuman_id stbl e.site_key <;> simp [equip_add_step, h]

theorem equips_add_fold_ops (mkMatId : Equipment → Int) (stbl : List Site) :
    ∀ (adds : List Equipment) (ops : List Op) (etbl : List Equipment),
      (equips_add_fold mkMatId stbl adds (ops, etbl)).1 =
        ops ++ adds.flatMap (fun e => (equip_add_step mkMatId stbl [] e).1) := by
  intro adds
  induction adds with
  | nil => intro ops etbl; simp [equips_add_fold]
  | cons e rest ih =>
    intro ops etbl
    have step : equips_add_fold mkMatId stbl (e :: rest) (ops, etbl) =
        equips_add_fold mkMatId stbl rest
          (ops ++ (equip_add_step mkMatId stbl etbl e).1,
            (equip_add_step mkMatId stbl etbl e).2) := rfl
    rw [step, ih, equip_add_step_ops_const mkMatId stbl etbl []]
    simp [List.flatMap_cons, List.append_assoc]

/-- C8: when the CMMS-hop add loop meets an equipment whose owning site has
no truthy `yuman_site_id` in the DB, that single item contributes exactly
one logged warning — no `create_material` call and no table change — and the
batch continues: the trace of `l1 ++ [e] ++ l2` is the trace of `l1`, then
the warning, then the trace of `l2`; the missing dependency never aborts the
hop. -/
theorem yuman_equips_add_skips_missing_site (mkMatId : Equipment → Int)
    (stbl : List Site) (etbl : List Equipment) (ops : List Op)
    (l1 l2 : List Equipment) (e : Equipment)
    (h : site_yuman_id stbl e.site_key = none) :
    (equip_add_step mkMatId stbl etbl e).1 = [Op.warnMissingSite e.site_key]
    ∧ (equip_add_step mkMatId stbl etbl e).2 = etbl
    ∧ (∀ yid b x, Op.createMaterial yid x b ∉ (equip_add_step mkMatId stbl etbl e).1)
    ∧ (equips_add_fold mkMatId stbl (l1 ++ e :: l2) (ops, etbl)).1 =
        ops ++ l1.flatMap (fun x => (equip_add_step mkMatId stbl [] x).1)
          ++ [Op.warnMissingSite e.site_key]
          ++ l2.flatMap (fun x => (equip_add_step mkMatId stbl [] x).1) := by
  have he : (equip_add_step mkMatId stbl [] e).1 = [Op.warnMissingSite e.site_key] := by
    simp [equip_add_step, h]
  refine ⟨by simp [equip_add_step, h], by simp [equip_add_step, h], ?_, ?_⟩
  · intro yid b x
    simp [equip_add_step, h]
  · rw [equips_add_fold_ops, List.flatMap_append, List.flatMap_cons, he]
    simp [List.append_assoc]

/-- Witness for C8: DB site table holding only `S1` with a null
`yuman_site_id`; the inverter `exEquip1` owned by `S1` is skipped with a
warning and the batch around it is unaffected. -/
theorem yuman_equips_add_skips_missing_site_witness :
    site_yuman_id [exSite1] exEquip1.site_key = none
    ∧ ((equip_add_step (fun _ => 7) [exSite1] [] exEquip1).1 =
        [Op.warnMissingSite exEquip1.site_key]
    ∧ (equip_add_step (fun _ => 7) [exSite1] [] exEquip1).2 = []
    ∧ (∀ yid b x,
        Op.createMaterial yid x b ∉ (equip_add_step (fun _ => 7) [exSite1] [] exEquip1).1)
    ∧ (equips_add_fold (fun _ => 7) [exSite1] ([] ++ exEquip1 :: [exEquip2]) ([], [])).1 =
        [] ++ List.flatMap [] (fun x => (equip_add_step (fun _ => 7) [exSite1] [] x).1)
          ++ [Op.warnMissingSite exEquip1.site_key]
          ++ List.flatMap [exEquip2] (fun x => (equip_add_step (fun _ => 7) [exSite1] [] x).1)) :=
  ⟨by decide,
    yuman_equips_add_skips_missing_site (fun _ => 7) [exSite1] [] [] [] [exEquip2]
      exEquip1 (by decide)⟩

theorem db_set_site_id_writes (tbl : List Site) (k : String) (y : Int) :
    ∀ r ∈ db_set_yuman_site_id tbl k y,
      r.vcom_system_key = k → r.yuman_site_id = some y := by
  intro r hr hkey
  obtain ⟨r0, hr0, heq⟩ := List.mem_map.mp hr
  by_cases h : r0.vcom_system_key = k
  · rw [if_pos h] at heq
    rw [← heq]
  · rw [if_neg h] at heq
    rw [← heq] at hkey
    exact absurd hkey h

theorem db_set_site_id_preserves (tbl : List Site) (k k' : String) (y y' : Int)
    (hne : k' ≠ k)
    (h : ∀ r ∈ tbl, r.vcom_system_key = k → r.yuman_site_id = some y) :
    ∀ r ∈ db_set_yuman_site_id tbl k' y',
      r.vcom_system_key = k → r.yuman_site_id = some y := by
  intro r hr hkey
  obtain ⟨r0, hr0, heq⟩ := List.mem_map.mp hr
  by_cases hc : r0.vcom_system_key = k'
  · rw [if_pos hc] at heq
    have hrk : r.vcom_system_key = k' := by rw [← heq]; exact hc
    exact absurd (hrk.symm.trans hkey) hne
  · rw [if_neg hc] at heq
    rw [← heq]
    exact h r0 hr0 (by rw [heq]; exact hkey)

theorem sites_fold_preserves (mkSiteId : Site → Int) (k : String) (y : Int) :
    ∀ (adds : List Site) (tbl : List Site),
      (∀ x ∈ adds, x.vcom_system_key ≠ k) →
      (∀ r ∈ tbl, r.vcom_system_key = k → r.yuman_site_id = some y) →
      ∀ r ∈ sites_add_fold mkSiteId adds tbl,
        r.vcom_system_key = k → r.yuman_site_id = some y := by
  intro adds
  induction adds with
  | nil => intro tbl _ h; exact h
  | cons a rest ih =>
    intro tbl hk h
    have step : sites_add_fold mkSiteId (a :: rest) tbl =
        sites_add_fold mkSiteId rest
          (db_set_yuman_site_id tbl a.vcom_system_key (mkSiteId a)) := rfl
    rw [step]
    apply ih
    · intro x hx
      exact hk x (List.mem_cons_of_mem _ hx)
    · exact db_set_site_id_preserves tbl k a.vcom_system_key y (mkSiteId a)
        (hk a (List.mem_cons_self _ _)) h

theorem sites_add_fold_writes (mkSiteId : Site → Int) :
    ∀ (adds : List Site) (tbl : List Site),
      (adds.map Site.vcom_system_key).Nodup →
      ∀ s ∈ adds, ∀ r ∈ sites_add_fold mkSiteId adds tbl,
        r.vcom_system_key = s.vcom_system_key →
        r.yuman_site_id = some (mkSiteId s) := by
  intro adds
  induction adds with
  | nil => intro tbl _ s hs; exact absurd hs (List.not_mem_nil s)
  | cons a rest ih =>
    intro tbl hnd s hs
    simp only [List.map_cons, List.nodup_cons] at hnd
    rcases List.mem_cons.mp hs with heq | hs'
    · subst heq
      have step : sites_add_fold mkSiteId (s :: rest) tbl =
          sites_add_fold mkSiteId rest
            (db_set_yuman_site_id tbl s.vcom_system_key (mkSiteId s)) := rfl
      rw [step]
      apply sites_fold_preserves
      · intro x hx he
        exact hnd.1 (he ▸ List.mem_map_of_mem Site.vcom_system_key hx)
      · exact db_set_site_id_writes tbl s.vcom_system_key (mkSiteId s)
    · exact ih _ hnd.2 s hs'

theorem db_set_material_id_writes (tbl : List Equipment) (k dev : String) (y : Int) :
    ∀ r ∈ db_set_yuman_material_id tbl k dev y,
      r.site_key = k → r.vcom_device_id = dev → r.yuman_material_id = some y := by
  intro r hr hk hdev
  obtain ⟨r0, hr0, heq⟩ := List.mem_map.mp hr
  by_cases h : r0.vcom_device_id = dev ∧ r0.site_key = k
  · rw [if_pos h] at heq
    rw [← heq]
  · rw [if_neg h] at heq
    rw [← heq] at hk hdev
    exact absurd ⟨hdev, hk⟩ h

theorem db_set_material_id_preserves (tbl : List Equipment)
    (k dev k' dev' : String) (y y' : Int)
    (hne : ¬(k' = k ∧ dev' = dev))
    (h : ∀ r ∈ tbl, r.site_key = k → r.vcom_device_id = dev →
      r.yuman_material_id = some y) :
    ∀ r ∈ db_set_yuman_material_id tbl k' dev' y',
      r.site_key = k → r.vcom_device_id = dev → r.yuman_material_id = some y := by
  intro r hr hk hdev
  obtain ⟨r0, hr0, heq⟩ := List.mem_map.mp hr
  by_cases hc : r0.vcom_device_id = dev' ∧ r0.site_key = k'
  · rw [if_pos hc] at heq
    have h1 : r.site_key = k' := by rw [← heq]; exact hc.2
    have h2 : r.vcom_device_id = dev' := by rw [← heq]; exact hc.1
    exact absurd ⟨h1.symm.trans hk, h2.symm.trans hdev⟩ hne
  · rw [if_neg hc] at heq
    rw [← heq]
    exact h r0 hr0 (by rw [heq]; exact hk) (by rw [heq]; exact hdev)

theorem equips_add_fold_tbl (mkMatId : Equipment → Int) (stbl : List Site) :
    ∀ (adds : List Equipment) (ops : List Op) (etbl : List Equipment),
      (equips_add_fold mkMatId stbl adds (ops, etbl)).2 =
        adds.foldl (fun t e => (equip_add_step mkMatId stbl t e).2) etbl := by
  intro adds
  induction adds with
  | nil => intro ops etbl; rfl
  | cons e rest ih =>
    intro ops etbl
    have step : equips_add_fold mkMatId stbl (e :: rest) (ops, etbl) =
        equips_add_fold mkMatId stbl rest
          (ops ++ (equip_add_step mkMatId stbl etbl e).1,
            (equip_add_step mkMatId stbl etbl e).2) := rfl
    rw [step, ih]
    rfl

theorem equips_tbl_fold_preserves (mkMatId : Equipment → Int) (stbl : List Site)
    (k dev : String) (y : Int) :
    ∀ (adds : List Equipment) (etbl : List Equipment),
      (∀ x ∈ adds, ¬(x.site_key = k ∧ x.vcom_device_id = dev)) →
      (∀ r ∈ etbl, r.site_key = k → r.vcom_device_id = dev →
        r.yuman_material_id = some y) →
      ∀ r ∈ adds.foldl (fun t e => (equip_add_step mkMatId stbl t e).2) etbl,
        r.site_key = k → r.vcom_device_id = dev → r.yuman_material_id = some y := by
  intro adds
  induction adds with
  | nil => intro etbl _ h; exact h
  | cons a rest ih =>
    intro etbl hk h
    simp only [List.foldl_cons]
    apply ih
    · intro x hx
      exact hk x (List.mem_cons_of_mem _ hx)
    · cases hs : site_yuman_id stbl a.site_key with
      | none => simpa [equip_add_step, hs] using h
      | some yid =>
        simp only [equip_add_step, hs]
        exact db_set_material_id_preserves etbl k dev a.site_key a.vcom_device_id
          y (mkMatId a) (fun hc => hk a (List.mem_cons_self _ _) ⟨hc.1, hc.2⟩) h

theorem equips_add_fold_writes (mkMatId : Equipment → Int) (stbl : List Site) :
    ∀ (adds : List Equipment) (etbl : List Equipment),
      (adds.map Equipment.key).Nodup →
      ∀ e ∈ adds, site_yuman_id stbl e.site_key ≠ none →
      ∀ r ∈ adds.foldl (fun t x => (equip_add_step mkMatId stbl t x).2) etbl,
        r.site_key = e.site_key → r.vcom_device_id = e.vcom_device_id →
        r.yuman_material_id = some (mkMatId e) := by
  intro adds
  induction adds with
  | nil => intro etbl _ e he; exact absurd he (List.not_mem_nil e)
  | cons a rest ih =>
    intro etbl hnd e he hyid
    simp only [List.map_cons, List.nodup_cons] at hnd
    rcases List.mem_cons.mp he with heq | he'
    · subst heq
      simp only [List.foldl_cons]
      apply equips_tbl_fold_preserves
      · intro x hx hc
        apply hnd.1
        have : x.key = e.key := by
          simp only [Equipment.key, hc.1, hc.2]
        exact this ▸ List.mem_map_of_mem Equipment.key hx
      · cases hs : site_yuman_id stbl e.site_key with
        | none => exact absurd hs hyid
        | some yid =>
          simp only [equip_add_step, hs]
          exact db_set_material_id_writes etbl e.site_key e.vcom_device_id (mkMatId e)
    · simp only [List.foldl_cons]
      exact ih _ hnd.2 e he' hyid

theorem diff_add_site_keys_nodup (y_sites db_sites : List (String × Site))
    (hnd : (db_sites.map Prod.fst).Nodup)
    (hcoh : ∀ kv ∈ db_sites, kv.2.vcom_system_key = kv.1) :
    (((diff_entities y_sites db_sites).add).map Site.vcom_system_key).Nodup := by
  have h1 : (diff_entities y_sites db_sites).add =
      (db_sites.filter (fun kv => (dget y_sites kv.1).isNone)).map Prod.snd := rfl
  rw [h1, List.map_map]
  have h2 : (db_sites.filter (fun kv => (dget y_sites kv.1).isNone)).map
      (Site.vcom_system_key ∘ Prod.snd) =
      (db_sites.filter (fun kv => (dget y_sites kv.1).isNone)).map Prod.fst := by
    apply List.map_congr_left
    intro kv hkv
    exact hcoh kv (List.mem_of_mem_filter hkv)
  rw [h2]
  exact List.Nodup.sublist (List.Sublist.map Prod.fst (List.filter_sublist _)) hnd

theorem diff_add_equip_keys_nodup
    (y_equips db_equips : List ((String × String) × Equipment))
    (hnd : (db_equips.map Prod.fst).Nodup)
    (hcoh : ∀ kv ∈ db_equips, kv.2.key = kv.1) :
    (((diff_entities y_equips db_equips).add).map Equipment.key).Nodup := by
  have h1 : (diff_entities y_equips db_equips).add =
      (db_equips.filter (fun kv => (dget y_equips kv.1).isNone)).map Prod.snd := rfl
  rw [h1, List.map_map]
  have h2 : (db_equips.filter (fun kv => (dget y_equips kv.1).isNone)).map
      (Equipment.key ∘ Prod.snd) =
      (db_equips.filter (fun kv => (dget y_equips kv.1).isNone)).map Prod.fst := by
    apply List.map_congr_left
    intro kv hkv
    exact hcoh kv (List.mem_of_mem_filter hkv)
  rw [h2]
  exact List.Nodup.sublist (List.Sublist.map Prod.fst (List.filter_sublist _)) hnd

/-- C5: for every add entry of a CMMS-hop patch whose creation succeeds, the
foreign identifier returned by the Yuman create call (`mkSiteId s` /
`mkMatId e`, standing for the response ids) is written back into the DB rows
for that entity's key by the time the hop completes: in the tables returned
by `apply_sites_patch` / `apply_equips_patch`, every row matching an added
site's key carries `yuman_site_id = some (mkSiteId s)`, and every row
matching an added equipment's key — when its owning site had a truthy
`yuman_site_id`, i.e. its creation was not skipped — carries
`yuman_material_id = some (mkMatId e)`.  The hypotheses say the DB target
snapshots are honest dictionaries keyed by the entities' own keys, as
`fetch_sites` / `fetch_equipments` construct them. -/
theorem yuman_add_writes_back_foreign_ids
    (mkSiteId : Site → Int) (mkMatId : Equipment → Int)
    (stbl : List Site) (etbl : List Equipment)
    (y_sites db_sites : List (String × Site))
    (y_equips db_equips : List ((String × String) × Equipment))
    (hnds : (db_sites.map Prod.fst).Nodup)
    (hcohs : ∀ kv ∈ db_sites, kv.2.vcom_system_key = kv.1)
    (hnde : (db_equips.map Prod.fst).Nodup)
    (hcohe : ∀ kv ∈ db_equips, kv.2.key = kv.1) :
    (∀ s ∈ (diff_entities y_sites db_sites).add,
      ∀ r ∈ (yuman_apply_sites_patch mkSiteId stbl y_sites db_sites).2,
        r.vcom_system_key = s.vcom_system_key →
        r.yuman_site_id = some (mkSiteId s))
    ∧ (∀ e ∈ (diff_entities y_equips db_equips).add,
        site_yuman_id stbl e.site_key ≠ none →
        ∀ r ∈ (yuman_apply_equips_patch mkMatId stbl etbl y_equips db_equips).2,
          r.site_key = e.site_key → r.vcom_device_id = e.vcom_device_id →
          r.yuman_material_id = some (mkMatId e)) := by
  constructor
  · intro s hs r hr
    exact sites_add_fold_writes mkSiteId _ stbl
      (diff_add_site_keys_nodup y_sites db_sites hnds hcohs) s hs r hr
  · intro e he hyid r hr
    have htbl : (yuman_apply_equips_patch mkMatId stbl etbl y_equips db_equips).2 =
        ((diff_entities y_equips db_equips).add).foldl
          (fun t x => (equip_add_step mkMatId stbl t x).2) etbl :=
      equips_add_fold_tbl mkMatId stbl _ _ etbl
    rw [htbl] at hr
    exact equips_add_fold_writes mkMatId stbl _ etbl
      (diff_add_equip_keys_nodup y_equips db_equips hnde hcohe) e he hyid r hr

/-- A copy of `exSite1` whose `yuman_site_id` is already assigned. -/
def exSite1y : Site :=
  ⟨"S1", "Site one", none, none, none, none, none, some 5⟩

/-- Witness for C5: empty Yuman snapshots against DB snapshots holding
`exSite1` and `exEquip1`; the site and material ids minted by the create
calls land in the corresponding DB rows. -/
theorem yuman_add_writes_back_foreign_ids_witness :
    (((([("S1", exSite1)] : List (String × Site)).map Prod.fst).Nodup
      ∧ (∀ kv ∈ ([("S1", exSite1)] : List (String × Site)), kv.2.vcom_system_key = kv.1)
      ∧ ((([(("S1", "INV1"), exEquip1)] :
          List ((String × String) × Equipment)).map Prod.fst).Nodup)
      ∧ (∀ kv ∈ ([(("S1", "INV1"), exEquip1)] :
          List ((String × String) × Equipment)), kv.2.key = kv.1))) ∧
    ((∀ s ∈ (diff_entities [] [("S1", exSite1)]).add,
      ∀ r ∈ (yuman_apply_sites_patch (fun _ => 101) [exSite1y] [] [("S1", exSite1)]).2,
        r.vcom_system_key = s.vcom_system_key →
        r.yuman_site_id = some 101)
    ∧ (∀ e ∈ (diff_entities [] [(("S1", "INV1"), exEquip1)]).add,
        site_yuman_id [exSite1y] e.site_key ≠ none →
        ∀ r ∈ (yuman_apply_equips_patch (fun _ => 77) [exSite1y] [exEquip1]
            [] [(("S1", "INV1"), exEquip1)]).2,
          r.site_key = e.site_key → r.vcom_device_id = e.vcom_device_id →
          r.yuman_material_id = some 77)) :=
  ⟨⟨by decide, by decide, by decide, by decide⟩,
    yuman_add_writes_back_foreign_ids (fun _ => 101) (fun _ => 77)
      [exSite1y] [exEquip1] [] [("S1", exSite1)] [] [(("S1", "INV1"), exEquip1)]
      (by decide) (by decide) (by decide) (by decide)⟩

/-- A row of the `equipments_mapping` table as `SupabaseAdapter.
fetch_equipments` reads it (`select("*")`): the columns the loop accesses.
A nullable `vcom_device_id` column read through `r["vcom_device_id"]` comes
back as the stored string, possibly empty. -/
structure EquipRow where
  vcom_system_key : String
  vcom_device_id : String
  category_id : Int
  eq_type : String
  name : String
  brand : Option String
  model : Option String
  serial_number : Option String
  count : Option Int
  parent_vcom_id : Option String
  yuman_material_id : Option Int
deriving DecidableEq, Repr

/-- The server-side filter
`.in_("category_id", [CAT_INVERTER, CAT_MODULE, CAT_STRING])` of
`fetch_equipments`. -/
def equip_category_whitelisted (r : EquipRow) : Bool :=
  r.category_id == CAT_INVERTER || r.category_id == CAT_MODULE ||
    r.category_id == CAT_STRING

/-- The snapshot key `(r["vcom_system_key"], r["vcom_device_id"])` used by
`fetch_equipments`. -/
def equipRowKey (r : EquipRow) : String × String :=
  (r.vcom_system_key, r.vcom_device_id)

/-- The `Equipment(...)` constructor call in the `fetch_equipments` loop,
column by column. -/
def equipOfRow (r : EquipRow) : Equipment :=
  ⟨r.vcom_system_key, r.category_id, r.eq_type, r.vcom_device_id, r.name,
    r.brand, r.model, r.serial_number, r.count, r.parent_vcom_id,
    r.yuman_material_id⟩

/-- `SupabaseAdapter.fetch_equipments` from
`vysync/adapters/supabase_adapter.py`: for every fetched row in the category
whitelist, build an `Equipment` and store it in the snapshot under the key
`(r["vcom_system_key"], r["vcom_device_id"])`.  The loop has no filtering on
the device identifier. -/
def sb_fetch_equipments (rows : List EquipRow) :
    List ((String × String) × Equipment) :=
  (rows.filter equip_category_whitelisted).foldl
    (fun out r => dinsert out (equipRowKey r) (equipOfRow r)) []

theorem dget_append_single_self {K T : Type} [DecidableEq K] (k : K) (v : T) :
    ∀ (m : List (K × T)), dget m k = none → dget (m ++ [(k, v)]) k = some v := by
  intro m
  induction m with
  | nil => intro _; simp [dget]
  | cons p rest ih =>
    intro h
    by_cases hk : p.1 = k
    · simp [dget, hk] at h
    · have h' : dget rest k = none := by simpa [dget, hk] using h
      simpa [dget, hk] using ih h'

theorem dget_append_single_ne {K T : Type} [DecidableEq K] (k q : K) (v : T)
    (hne : q ≠ k) :
    ∀ (m : List (K × T)), dget (m ++ [(k, v)]) q = dget m q := by
  intro m
  induction m with
  | nil => simp [dget, Ne.symm hne]
  | cons p rest ih => simp [dget, ih]

theorem dget_map_replace_self {K T : Type} [DecidableEq K] (k : K) (v : T) :
    ∀ (m : List (K × T)), (dget m k).isSome →
      dget (m.map (fun kv => if kv.1 = k then (k, v) else kv)) k = some v := by
  intro m
  induction m with
  | nil => intro h; simp [dget] at h
  | cons p rest ih =>
    intro h
    by_cases hk : p.1 = k
    · simp [dget, hk]
    · have h' : (dget rest k).isSome := by simpa [dget, hk] using h
      simpa [dget, hk] using ih h'

theorem dget_map_replace_ne {K T : Type} [DecidableEq K] (k q : K) (v : T)
    (hne : q ≠ k) :
    ∀ (m : List (K × T)),
      dget (m.map (fun kv => if kv.1 = k then (k, v) else kv)) q = dget m q := by
  intro m
  induction m with
  | nil => simp
  | cons p rest ih =>
    by_cases hk : p.1 = k
    · have hkq : ¬(k = q) := fun e => hne e.symm
      have hpq : ¬(p.1 = q) := by rw [hk]; exact hkq
      simp [dget, hk, hkq, hpq, ih]
    · simp [dget, hk, ih]

theorem dget_dinsert_self {K T : Type} [DecidableEq K] (k : K) (v : T)
    (m : List (K × T)) : dget (dinsert m k v) k = some v := by
  simp only [dinsert]
  by_cases h : (dget m k).isSome
  · rw [if_pos h]
    exact dget_map_replace_self k v m h
  · rw [if_neg h]
    exact dget_append_single_self k v m (Option.not_isSome_iff_eq_none.mp h)

theorem dget_dinsert_ne {K T : Type} [DecidableEq K] (k q : K) (v : T)
    (hne : q ≠ k) (m : List (K × T)) :
    dget (dinsert m k v) q = dget m q := by
  simp only [dinsert]
  by_cases h : (dget m k).isSome
  · rw [if_pos h]
    exact dget_map_replace_ne k q v hne m
  · rw [if_neg h]
    exact dget_append_single_ne k q v hne m

theorem dget_dinsert_isSome_preserve {K T : Type} [DecidableEq K]
    (m : List (K × T)) (k q : K) (v : T) (h : (dget m q).isSome) :
    (dget (dinsert m k v) q).isSome := by
  by_cases hk : q = k
  · subst hk
    rw [dget_dinsert_self]
    rfl
  · rw [dget_dinsert_ne k q v hk]
    exact h

theorem mem_dinsert {K T : Type} [DecidableEq K]
    {m : List (K × T)} {k : K} {v : T} {kv : K × T}
    (h : kv ∈ dinsert m k v) : kv ∈ m ∨ kv = (k, v) := by
  simp only [dinsert] at h
  by_cases hp : (dget m k).isSome
  · rw [if_pos hp] at h
    obtain ⟨kv0, hkv0, heq⟩ := List.mem_map.mp h
    by_cases hk : kv0.1 = k
    · rw [if_pos hk] at heq
      exact Or.inr heq.symm
    · rw [if_neg hk] at heq
      exact Or.inl (heq ▸ hkv0)
  · rw [if_neg hp] at h
    rcases List.mem_append.mp h with h1 | h2
    · exact Or.inl h1
    · exact Or.inr (by simpa using h2)

theorem dget_foldl_dinsert_preserve {K T α : Type} [DecidableEq K]
    (key : α → K) (val : α → T) :
    ∀ (l : List α) (out : List (K × T)) (q : K), (dget out q).isSome →
      (dget (l.foldl (fun m x => dinsert m (key x) (val x)) out) q).isSome := by
  intro l
  induction l with
  | nil => intro out q h; exact h
  | cons x rest ih =>
    intro out q h
    simp only [List.foldl_cons]
    exact ih _ q (dget_dinsert_isSome_preserve out (key x) q (val x) h)

theorem dget_foldl_dinsert_mem {K T α : Type} [DecidableEq K]
    (key : α → K) (val : α → T) :
    ∀ (l : List α) (out : List (K × T)) (a : α), a ∈ l →
      (dget (l.foldl (fun m x => dinsert m (key x) (val x)) out) (key a)).isSome := by
  intro l
  induction l with
  | nil => intro out a ha; exact absurd ha (List.not_mem_nil a)
  | cons x rest ih =>
    intro out a ha
    simp only [List.foldl_cons]
    rcases List.mem_cons.mp ha with heq | hmem
    · subst heq
      apply dget_foldl_dinsert_preserve
      rw [dget_dinsert_self]
      rfl
    · exact ih _ a hmem

theorem mem_foldl_dinsert {K T α : Type} [DecidableEq K]
    (key : α → K) (val : α → T) :
    ∀ (l : List α) (out : List (K × T)) (kv : K × T),
      kv ∈ l.foldl (fun m x => dinsert m (key x) (val x)) out →
      kv ∈ out ∨ ∃ x ∈ l, kv.1 = key x := by
  intro l
  induction l with
  | nil => intro out kv h; exact Or.inl h
  | cons x rest ih =>
    intro out kv h
    simp only [List.foldl_cons] at h
    rcases ih _ kv h with h1 | h2
    · rcases mem_dinsert h1 with h3 | h4
      · exact Or.inl h3
      · exact Or.inr ⟨x, List.mem_cons_self _ _, by rw [h4]⟩
    · obtain ⟨y, hy, hk⟩ := h2
      exact Or.inr ⟨y, List.mem_cons_of_mem _ hy, hk⟩

/-- A stored equipment row whose device identifier is the empty string. -/
def exRowEmptyDev : EquipRow :=
  ⟨"S1", "", 11102, "inverter", "Inverter X", none, none, none, none, none, none⟩

/-- The `Equipment` that `fetch_equipments` builds from `exRowEmptyDev`. -/
def exEquipEmptyDev : Equipment :=
  ⟨"S1", 11102, "inverter", "", "Inverter X", none, none, none, none, none, none⟩

/-- Counterexample to C9 as stated: a whitelisted source row with an empty
device identifier is NOT excluded by `fetch_equipments` — it lands in the
snapshot, keyed by the empty identifier.  So the produced snapshot does not
contain only entries with a non-empty device identifier. -/
theorem sb_fetch_includes_empty_device_id_cex :
    sb_fetch_equipments [exRowEmptyDev] = [(("S1", ""), exEquipEmptyDev)]
    ∧ ¬(∀ kv ∈ sb_fetch_equipments [exRowEmptyDev], kv.2.vcom_device_id ≠ "") := by
  constructor
  · decide
  · decide

/-- C9 (amended): the adapter fetch does not filter on the device
identifier.  Every source row in the category whitelist — whatever its
device identifier, empty included — contributes an entry to the snapshot at
the key `(system key, device identifier)`, and conversely every snapshot
entry stems from a whitelisted source row whose raw identifiers form its
key. -/
theorem sb_fetch_equipments_no_device_filter (rows : List EquipRow) :
    (∀ r ∈ rows, equip_category_whitelisted r = true →
      (dget (sb_fetch_equipments rows)
        (r.vcom_system_key, r.vcom_device_id)).isSome)
    ∧ (∀ kv ∈ sb_fetch_equipments rows, ∃ r ∈ rows,
        equip_category_whitelisted r = true ∧
        kv.1 = (r.vcom_system_key, r.vcom_device_id)) := by
  constructor
  · intro r hr hw
    exact dget_foldl_dinsert_mem equipRowKey equipOfRow
      (rows.filter equip_category_whitelisted) [] r
      (List.mem_filter.mpr ⟨hr, hw⟩)
  · intro kv hkv
    rcases mem_foldl_dinsert equipRowKey equipOfRow
        (rows.filter equip_category_whitelisted) [] kv hkv with h1 | h2
    · exact absurd h1 (List.not_mem_nil kv)
    · obtain ⟨x, hx, hk⟩ := h2
      obtain ⟨hx1, hx2⟩ := List.mem_filter.mp hx
      exact ⟨x, hx1, hx2, hk⟩

/-- Witness for the amended C9 at the one-row table `[exRowEmptyDev]`. -/
theorem sb_fetch_equipments_no_device_filter_witness :
    (∀ r ∈ [exRowEmptyDev], equip_category_whitelisted r = true →
      (dget (sb_fetch_equipments [exRowEmptyDev])
        (r.vcom_system_key, r.vcom_device_id)).isSome)
    ∧ (∀ kv ∈ sb_fetch_equipments [exRowEmptyDev], ∃ r ∈ [exRowEmptyDev],
        equip_category_whitelisted r = true ∧
        kv.1 = (r.vcom_system_key, r.vcom_device_id)) :=
  sb_fetch_equipments_no_device_filter [exRowEmptyDev]
